import Mathlib

/-!
Shallow embedding of the Order-service loading pipeline and reporting
queries (src/main.py, with the variant loader of src/main2.py).

Modelling conventions:
* JSON integers are `Int`, strings are `String`, the float `price` column is
  `Rat`, `created` is the Unix-epoch-seconds integer carried by the source
  record (`datetime.fromtimestamp` is order-isomorphic to the epoch value and
  the string rendering of timestamps is not needed by any claim).
* A JSON object field that may be absent is an `Option`; reading an absent
  field (`data['x']` in Python) raises `KeyError`, modelled by the
  `LineResult.keyError` / `LoadOutcome.crashed` constructors.
* Database commits are modelled on their success path inside the loader
  (every `__try_commit` applies the session's pending writes); the
  failure behaviour of `__try_commit` itself (rollback + report) is embedded
  separately by `tryCommit` over an explicit pending-operation session.
-/

/-- Row of the `users` table (src/main.py lines 37-43). -/
@[ext] structure UserRow where
  id : Int
  name : String
  city : String
deriving Repr, DecidableEq

/-- Row of the `products` table (src/main.py lines 45-51). -/
@[ext] structure ProductRow where
  id : Int
  name : String
  price : Rat
deriving Repr, DecidableEq

/-- Row of the `orders` table (src/main.py lines 53-60). -/
@[ext] structure OrderRow where
  id : Int
  user_id : Int
  created : Int
deriving Repr, DecidableEq

/-- Row of the `order_product` association table (src/main.py lines 29-35). -/
@[ext] structure AssocRow where
  order_id : Int
  product_id : Int
  quantity : Nat
deriving Repr, DecidableEq

/-- The persistent store: the four tables. -/
@[ext] structure DB where
  users : List UserRow
  products : List ProductRow
  orders : List OrderRow
  assocs : List AssocRow
deriving Repr, DecidableEq

def emptyDB : DB := ⟨[], [], [], []⟩

/-- The `user` object of a source record; each field may be absent. -/
structure UserData where
  id : Option Int
  name : Option String
  city : Option String
deriving Repr, DecidableEq

/-- One element of the `products` array of a source record. -/
structure ProductEntry where
  id : Option Int
  name : Option String
  price : Option Rat
deriving Repr, DecidableEq

/-- One decoded source record (one line of the NDJSON input). -/
structure OrderRecord where
  id : Option Int
  created : Option Int
  user : Option UserData
  products : Option (List ProductEntry)
deriving Repr, DecidableEq

/-- `sys.stderr` message of src/main.py line 125. -/
def orderMissingMsg (p : String) : String :=
  "Order is missing the \"" ++ p ++ "\" property.\n"

/-- `sys.stderr` message of src/main.py line 134. -/
def userMissingMsg (oid : Int) (p : String) : String :=
  "User in order with id: \"" ++ toString oid ++ "\" is missing the \"" ++ p ++ "\" property.\n"

/-- `sys.stderr` message of src/main.py line 152. -/
def productMissingMsg (oid : Int) (a : String) : String :=
  "Product in order with id: \"" ++ toString oid ++ "\" is missing the \"" ++ a ++ "\" attribute.\n"

/-- `sys.stderr` message of src/main.py line 119. -/
def incorrectFormatMsg : String := "Incorrect data file format.\n"

/-- `OrdersService.__add_to_session` (src/main.py lines 75-83): query for a
row with the object's primary key; merge (overwrite) when present, add when
absent. Generic over the table's row type via the key projection `gid`. -/
def upsertBy {α : Type} (gid : α → Int) (l : List α) (a : α) : List α :=
  if ∃ x ∈ l, gid x = gid a then
    l.map (fun x => if gid x = gid a then a else x)
  else
    l ++ [a]

/-- The composite key `(item['order_id'], item['product_id'])` used at
src/main.py line 101. -/
def itemKey (i : AssocRow) : Int × Int := (i.order_id, i.product_id)

/-- Recursion of `__deduplicate_list_of_order_product_items`
(src/main.py lines 94-105) with the `seen` set made explicit. -/
def dedupGo (seen : List (Int × Int)) : List AssocRow → List AssocRow
  | [] => []
  | item :: rest =>
    if itemKey item ∈ seen then dedupGo seen rest
    else item :: dedupGo (itemKey item :: seen) rest

/-- `OrdersService.__deduplicate_list_of_order_product_items`
(src/main.py lines 94-105). -/
def deduplicateListOfOrderProductItems (listItems : List AssocRow) : List AssocRow :=
  dedupGo [] listItems

/-- `session.query(order_product).filter(order_id == oid, product_id == pid).count()`
(src/main.py line 167). -/
def countAssoc (assocs : List AssocRow) (oid pid : Int) : Nat :=
  (assocs.filter (fun row => decide (row.order_id = oid ∧ row.product_id = pid))).length

/-- The staging loop of src/main.py lines 165-168: for each occurrence of a
product id, stage an association item unless the (order_id, product_id) row
already exists in the store; the staged quantity is the completed
`quantity_map` count, i.e. the number of occurrences in `product_ids`. -/
def stageAssocItems (assocs : List AssocRow) (oid : Int) (pids : List Int) : List AssocRow :=
  (pids.filter (fun pid => decide (countAssoc assocs oid pid = 0))).map
    (fun pid => ⟨oid, pid, pids.count pid⟩)

/-- Order-level validation loop (src/main.py lines 122-126): report each of
`id`, `created`, `products`, `user` that is absent; never skips the record. -/
def orderValidationErrors (r : OrderRecord) : List String :=
  (if r.id.isNone then [orderMissingMsg "id"] else [])
    ++ (if r.created.isNone then [orderMissingMsg "created"] else [])
    ++ (if r.products.isNone then [orderMissingMsg "products"] else [])
    ++ (if r.user.isNone then [orderMissingMsg "user"] else [])

/-- User-level validation loop (src/main.py lines 131-135). -/
def userValidationErrors (oid : Int) (u : UserData) : List String :=
  (if u.id.isNone then [userMissingMsg oid "id"] else [])
    ++ (if u.name.isNone then [userMissingMsg oid "name"] else [])
    ++ (if u.city.isNone then [userMissingMsg oid "city"] else [])

/-- Product-level validation loop (src/main.py lines 149-153). -/
def productValidationErrors (oid : Int) (e : ProductEntry) : List String :=
  (if e.id.isNone then [productMissingMsg oid "id"] else [])
    ++ (if e.name.isNone then [productMissingMsg oid "name"] else [])
    ++ (if e.price.isNone then [productMissingMsg oid "price"] else [])

/-- First products loop (src/main.py lines 146-156): per entry, report
missing attributes, then read `product_data['id']` (a `KeyError` when absent,
which aborts the line), bump `quantity_map` and append to `product_ids`.
Returns the stderr reports and `product_ids`; `quantity_map pid` is
recovered as `pids.count pid` since the map is completed before being read. -/
def collectProducts (oid : Int) : List ProductEntry → Except (List String × String) (List String × List Int)
  | [] => .ok ([], [])
  | e :: rest =>
    match e.id with
    | none => .error (productValidationErrors oid e, "id")
    | some pid =>
      match collectProducts oid rest with
      | .ok (errs, pids) => .ok (productValidationErrors oid e ++ errs, pid :: pids)
      | .error (errs, k) => .error (productValidationErrors oid e ++ errs, k)

/-- Result of processing one decoded line: normal completion, or an uncaught
`KeyError` (the store is the committed state at crash time; pending session
writes are lost). Both carry the stderr reports written by the line. -/
inductive LineResult where
  | ok (db : DB) (errs : List String)
  | keyError (db : DB) (errs : List String) (key : String)
deriving Repr, DecidableEq

/-- src/main.py lines 164-177: stage association items against the current
store, deduplicate them by (order_id, product_id), and bulk-insert the
survivors (the insert of an empty staged list is skipped, which is the same
as appending nothing). -/
def insertAssocPhase (db : DB) (oid : Int) (pids : List Int) : DB :=
  { db with assocs :=
      db.assocs ++ deduplicateListOfOrderProductItems (stageAssocItems db.assocs oid pids) }

/-- Second products loop and association insert (src/main.py lines 158-177):
every product id is upserted with the name and price of `product_data`,
the loop variable left over from the first loop, i.e. the LAST entry of the
`products` array; then the association phase runs. -/
def finishProducts (db : DB) (oid : Int) (errs : List String) (pids : List Int)
    (lname : String) (lprice : Rat) : LineResult :=
  .ok (insertAssocPhase
        { db with products :=
            pids.foldl (fun acc pid => upsertBy (fun p => p.id) acc ⟨pid, lname, lprice⟩) db.products }
        oid pids) errs

/-- src/main.py lines 146-177: the whole products section of a line. When
`product_ids` is empty the second loop never runs, so the stale
`product_data` is never read; otherwise reading its `name`/`price` raises
`KeyError` when the last entry lacks them. -/
def productsPhase (db : DB) (oid : Int) (errs : List String)
    (entries : List ProductEntry) : LineResult :=
  match collectProducts oid entries with
  | .error (perrs, k) => .keyError db (errs ++ perrs) k
  | .ok (perrs, pids) =>
    match pids with
    | [] => .ok (insertAssocPhase db oid []) (errs ++ perrs)
    | _ :: _ =>
      match entries.getLast? with
      | none => .keyError db (errs ++ perrs) "name"
      | some lastE =>
        match lastE.name with
        | none => .keyError db (errs ++ perrs) "name"
        | some lname =>
          match lastE.price with
          | none => .keyError db (errs ++ perrs) "price"
          | some lprice => finishProducts db oid (errs ++ perrs) pids lname lprice

/-- Processing of one decoded line of `load_data_from_file`
(src/main.py lines 122-177). Field reads happen in source order; the first
absent one raises `KeyError` with the store as committed so far (the
user staged at line 139 only becomes visible with the commit at line 144,
so a crash on `data['created']` loses it). -/
def processLine (db : DB) (r : OrderRecord) : LineResult :=
  match r.id with
  | none => .keyError db (orderValidationErrors r) "id"
  | some oid =>
    match r.user with
    | none => .keyError db (orderValidationErrors r) "user"
    | some u =>
      match u.id with
      | none => .keyError db (orderValidationErrors r ++ userValidationErrors oid u) "id"
      | some uid =>
        match u.name with
        | none => .keyError db (orderValidationErrors r ++ userValidationErrors oid u) "name"
        | some uname =>
          match u.city with
          | none => .keyError db (orderValidationErrors r ++ userValidationErrors oid u) "city"
          | some ucity =>
            match r.created with
            | none => .keyError db (orderValidationErrors r ++ userValidationErrors oid u) "created"
            | some created =>
              match r.products with
              | none =>
                .keyError
                  { db with users := upsertBy (fun x => x.id) db.users ⟨uid, uname, ucity⟩,
                            orders := upsertBy (fun x => x.id) db.orders ⟨oid, uid, created⟩ }
                  (orderValidationErrors r ++ userValidationErrors oid u) "products"
              | some entries =>
                productsPhase
                  { db with users := upsertBy (fun x => x.id) db.users ⟨uid, uname, ucity⟩,
                            orders := upsertBy (fun x => x.id) db.orders ⟨oid, uid, created⟩ }
                  oid (orderValidationErrors r ++ userValidationErrors oid u) entries

/-- One line of the input file: either text that is not valid JSON, or a
decoded order record. -/
inductive Line where
  | bad
  | record (r : OrderRecord)
deriving Repr, DecidableEq

/-- Outcome of a whole load: `done` carries the final store, the stderr
reports and the `Total lines processed` counter printed at src/main.py
line 181; `crashed` is an uncaught exception escaping the loop (no counter
is ever printed). -/
inductive LoadOutcome where
  | done (db : DB) (errs : List String) (linesProcessed : Nat)
  | crashed (db : DB) (errs : List String) (exn : String)
deriving Repr, DecidableEq

/-- Loop of `OrdersService.load_data_from_file` (src/main.py lines 112-181):
a JSON decode failure is reported and breaks out of the loop, after which
the line counter is still printed; a `KeyError` inside a line propagates. -/
def loadAux (db : DB) (errs : List String) (numLines : Nat) : List Line → LoadOutcome
  | [] => .done db errs numLines
  | .bad :: _ => .done db (errs ++ [incorrectFormatMsg]) numLines
  | .record r :: rest =>
    match processLine db r with
    | .ok db' e => loadAux db' (errs ++ e) (numLines + 1) rest
    | .keyError db' e k => .crashed db' (errs ++ e) k

/-- `OrdersService.load_data_from_file` of src/main.py. -/
def loadDataFromFile (db : DB) (lines : List Line) : LoadOutcome :=
  loadAux db [] 0 lines

/-- Exception marker for the uncaught decode error of src/main2.py line 91. -/
def jsonDecodeExn : String := "json.decoder.JSONDecodeError"

/-- Loop of `OrdersService.load_data_from_file` of src/main2.py
(lines 87-152): identical to src/main.py except that `json.loads` is not
wrapped in try/except, so a malformed line raises an uncaught exception:
nothing is written to stderr by the program and no counter is printed. -/
def main2LoadAux (db : DB) (errs : List String) (numLines : Nat) : List Line → LoadOutcome
  | [] => .done db errs numLines
  | .bad :: _ => .crashed db errs jsonDecodeExn
  | .record r :: rest =>
    match processLine db r with
    | .ok db' e => main2LoadAux db' (errs ++ e) (numLines + 1) rest
    | .keyError db' e k => .crashed db' (errs ++ e) k

/-- `OrdersService.load_data_from_file` of src/main2.py. -/
def main2LoadDataFromFile (db : DB) (lines : List Line) : LoadOutcome :=
  main2LoadAux db [] 0 lines

/-- One pending write of an ORM session (the operations the loader stages
between commits). -/
inductive DbOp where
  | upsertUser (u : UserRow)
  | upsertProduct (p : ProductRow)
  | upsertOrder (o : OrderRow)
  | insertAssocRows (rows : List AssocRow)
deriving Repr, DecidableEq

/-- Effect of one pending write on the committed store. -/
def applyOp (db : DB) : DbOp → DB
  | .upsertUser u => { db with users := upsertBy (fun x => x.id) db.users u }
  | .upsertProduct p => { db with products := upsertBy (fun x => x.id) db.products p }
  | .upsertOrder o => { db with orders := upsertBy (fun x => x.id) db.orders o }
  | .insertAssocRows rows => { db with assocs := db.assocs ++ rows }

/-- An ORM session: the committed store plus the writes staged since the
last commit. -/
@[ext] structure SessionState where
  committed : DB
  pending : List DbOp
deriving Repr, DecidableEq

/-- The stderr report written by src/main.py line 92 (`str(e) + '\n'`). -/
def commitErrorMsg : String := "SQLAlchemyError\n"

/-- `OrdersService.__try_commit` (src/main.py lines 85-92): commit, and on a
database error roll the transaction back (pending writes are discarded, the
committed store is untouched), report to stderr and return normally.
`dbFails` is the oracle for whether the underlying database raises. -/
def tryCommit (s : SessionState) (dbFails : Bool) (stderrLog : List String) :
    SessionState × List String :=
  if dbFails then (⟨s.committed, []⟩, stderrLog ++ [commitErrorMsg])
  else (⟨s.pending.foldl applyOp s.committed, []⟩, stderrLog)

/-- `OrdersService.__get_product_ids_for_order` loop (src/main.py
lines 186-191): append each row's product id `quantity` times. -/
def expandRows : List AssocRow → List Int
  | [] => []
  | row :: rest => List.replicate row.quantity row.product_id ++ expandRows rest

/-- `OrdersService.__get_product_ids_for_order` (src/main.py lines 183-191). -/
def getProductIdsForOrder (db : DB) (oid : Int) : List Int :=
  expandRows (db.assocs.filter (fun row => decide (row.order_id = oid)))

/-- One result object of `get_orders_in_time_range` (src/main.py
lines 200-207); `created` is kept as the epoch value rather than its
`strftime` rendering. -/
structure OrderOut where
  id : Int
  user_id : Int
  product_ids : List Int
  created : Int
deriving Repr, DecidableEq

/-- Insertion step of sorting by `created` ascending (`order_by(Order.created)`,
src/main.py line 198). -/
def insertByCreated (o : OrderRow) : List OrderRow → List OrderRow
  | [] => [o]
  | x :: xs => if o.created ≤ x.created then o :: x :: xs else x :: insertByCreated o xs

/-- Sort by `created` ascending. -/
def sortByCreated (l : List OrderRow) : List OrderRow :=
  l.foldr insertByCreated []

/-- `OrdersService.get_orders_in_time_range` (src/main.py lines 193-209):
filter `created BETWEEN start AND end` (inclusive on both ends), order by
`created` ascending, expand each order's product ids by quantity. -/
def getOrdersInTimeRange (db : DB) (startT endT : Int) : List OrderOut :=
  (sortByCreated (db.orders.filter (fun o => decide (startT ≤ o.created ∧ o.created ≤ endT)))).map
    (fun o => ⟨o.id, o.user_id, getProductIdsForOrder db o.id, o.created⟩)

/-- `SUM(order_product.quantity)` grouped on one order id (the inner
subquery of src/main.py lines 217-222). -/
def orderQuantitySum (db : DB) (oid : Int) : Nat :=
  ((db.assocs.filter (fun row => decide (row.order_id = oid))).map (fun row => row.quantity)).sum

/-- Whether an order has at least one association row (the inner join of
src/main.py line 219 keeps exactly those orders). -/
def orderHasAssoc (db : DB) (o : OrderRow) : Bool :=
  db.assocs.any (fun row => row.order_id == o.id)

/-- The per-user aggregate of src/main.py lines 224-231: sum of the per-order
quantity sums over the user's orders that have association rows. -/
def userPurchaseCount (db : DB) (uid : Int) : Nat :=
  ((db.orders.filter (fun o => decide (o.user_id = uid) && orderHasAssoc db o)).map
    (fun o => orderQuantitySum db o.id)).sum

/-- Distinct keys in first-occurrence order (the `GROUP BY` key set). -/
def distinctKeys (seen : List Int) : List Int → List Int
  | [] => []
  | x :: xs => if x ∈ seen then distinctKeys seen xs else x :: distinctKeys (x :: seen) xs

/-- The user ids grouped over at src/main.py line 227: user ids of orders
that have at least one association row. -/
def usersWithPurchases (db : DB) : List Int :=
  distinctKeys [] ((db.orders.filter (fun o => orderHasAssoc db o)).map (fun o => o.user_id))

/-- Insertion step of sorting pairs by second component descending
(`ORDER BY purchase_count DESC`, src/main.py line 228). -/
def insertDescBySnd (a : Int × Nat) : List (Int × Nat) → List (Int × Nat)
  | [] => [a]
  | x :: xs => if x.2 ≤ a.2 then a :: x :: xs else x :: insertDescBySnd a xs

/-- Sort pairs by second component descending. -/
def sortDescBySnd (l : List (Int × Nat)) : List (Int × Nat) :=
  l.foldr insertDescBySnd []

/-- The `subquery_aggregated` of src/main.py lines 224-231: (user_id,
purchase_count) pairs ordered by purchase_count descending, limited to
`numUsers`. -/
def subqueryAggregated (db : DB) (numUsers : Nat) : List (Int × Nat) :=
  (sortDescBySnd ((usersWithPurchases db).map (fun u => (u, userPurchaseCount db u)))).take numUsers

/-- One result object of `get_top_users_by_product_purchase_count`
(src/main.py lines 240-247). -/
structure TopUser where
  user_id : Int
  user_name : String
  user_city : String
  purchase_count : Nat
deriving Repr, DecidableEq

/-- `OrdersService.get_top_users_by_product_purchase_count` (src/main.py
lines 211-251): join the aggregate with the `users` table (an inner join on
the primary key: a missing user row drops the entry, a present one is
unique) and order by purchase_count descending, which the aggregate already
satisfies. -/
def getTopUsersByProductPurchaseCount (db : DB) (numUsers : Nat) : List TopUser :=
  (subqueryAggregated db numUsers).filterMap
    (fun p => (db.users.find? (fun u => u.id == p.1)).map
      (fun u => ⟨u.id, u.name, u.city, p.2⟩))

/-! ## Helper definitions used by the proofs -/

/-- Every row keyed `pid` is present and equals `v pid`. -/
def goodFor {α : Type} (gid : α → Int) (v : Int → α) (pid : Int) (l : List α) : Prop :=
  pid ∈ l.map gid ∧ ∀ x ∈ l, gid x = pid → x = v pid

/-- The name and price read from the stale `product_data` loop variable
(the last entry of the `products` array) in the second loop of
src/main.py lines 158-162, with defaults never used on the success path. -/
def lastNamePrice (entries : List ProductEntry) : String × Rat :=
  match entries.getLast? with
  | some e => (e.name.getD "", e.price.getD 0)
  | none => ("", 0)

/-- The `products` table after the second loop of src/main.py lines 158-162. -/
def productsFold (tbl : List ProductRow) (entries : List ProductEntry) : List ProductRow :=
  (entries.filterMap (fun e => e.id)).foldl
    (fun acc pid => upsertBy (fun p => p.id) acc
      ⟨pid, (lastNamePrice entries).1, (lastNamePrice entries).2⟩) tbl

/-- Store after processing a crash-free prefix of records. -/
def runState (db : DB) : List OrderRecord → DB
  | [] => db
  | r :: rest =>
    match processLine db r with
    | .ok db' _ => runState db' rest
    | .keyError db' _ _ => db'

/-- Error-stream reports written while processing a prefix of records. -/
def runErrs (db : DB) : List OrderRecord → List String
  | [] => []
  | r :: rest =>
    match processLine db r with
    | .ok db' e => e ++ runErrs db' rest
    | .keyError _ e _ => e

/-- Whether every record of the list processes without an uncaught error. -/
def allOk (db : DB) : List OrderRecord → Bool
  | [] => true
  | r :: rest =>
    match processLine db r with
    | .ok db' _ => allOk db' rest
    | .keyError _ _ _ => false

/-- Sum of quantities of the association rows of one order id. -/
def rowsQuantitySum (rows : List AssocRow) (oid : Int) : Nat :=
  ((rows.filter (fun r => decide (r.order_id = oid))).map (fun r => r.quantity)).sum

/-- The claim's reading of the ranking value: the sum of `quantity` over all
association rows belonging to the given user's orders. -/
def claimPurchaseCount (db : DB) (uid : Int) : Nat :=
  ((db.assocs.filter (fun row =>
      (db.orders.filter (fun o => decide (o.user_id = uid))).any
        (fun o => o.id == row.order_id))).map (fun row => row.quantity)).sum

/-- The products array of the spec's worked example: the same product twice. -/
def wEntries : List ProductEntry :=
  [⟨some 10, some "Pen", some 2⟩, ⟨some 10, some "Pen", some 2⟩]

/-- The spec's worked example record (order 1 by user 1, product 10 twice). -/
def wRec : OrderRecord :=
  ⟨some 1, some 200, some ⟨some 1, some "Alice", some "Prague"⟩, some wEntries⟩

/-- The store produced by loading `wRec` into the empty store. -/
def wDB1 : DB :=
  ⟨[⟨1, "Alice", "Prague"⟩], [⟨10, "Pen", 2⟩], [⟨1, 1, 200⟩], [⟨1, 10, 2⟩]⟩

/-- A small populated store for the reporting-query witnesses. -/
def wDB : DB :=
  ⟨[⟨1, "Alice", "Prague"⟩, ⟨2, "Bob", "Brno"⟩],
   [⟨10, "Pen", 1⟩],
   [⟨7, 1, 100⟩, ⟨8, 2, 50⟩, ⟨9, 1, 70⟩],
   [⟨7, 10, 2⟩, ⟨8, 10, 5⟩, ⟨9, 10, 1⟩]⟩

/-- An item list with duplicated (order_id, product_id) keys. -/
def wItems : List AssocRow := [⟨3, 6, 1⟩, ⟨3, 6, 5⟩, ⟨2, 6, 4⟩, ⟨3, 6, 9⟩]

/-! ## Lemmas about the upsert primitive -/

theorem upsertBy_mem_eq {α : Type} (gid : α → Int) (l : List α) (a : α) :
    ∀ x ∈ upsertBy gid l a, gid x = gid a → x = a := by
  intro x hx hgx
  unfold upsertBy at hx
  split at hx
  · rcases List.mem_map.mp hx with ⟨y, hy, hxy⟩
    by_cases hgy : gid y = gid a
    · rw [if_pos hgy] at hxy; exact hxy.symm
    · rw [if_neg hgy] at hxy; subst hxy; exact absurd hgx hgy
  · next hno =>
    rcases List.mem_append.mp hx with h | h
    · exact absurd ⟨x, h, hgx⟩ hno
    · simpa using h

theorem upsertBy_mem_ne {α : Type} (gid : α → Int) (l : List α) (a : α) :
    ∀ x ∈ upsertBy gid l a, gid x ≠ gid a → x ∈ l := by
  intro x hx hgx
  unfold upsertBy at hx
  split at hx
  · rcases List.mem_map.mp hx with ⟨y, hy, hxy⟩
    by_cases hgy : gid y = gid a
    · rw [if_pos hgy] at hxy; subst hxy; exact absurd rfl hgx
    · rw [if_neg hgy] at hxy; subst hxy; exact hy
  · rcases List.mem_append.mp hx with h | h
    · exact h
    · simp only [List.mem_singleton] at h; subst h; exact absurd rfl hgx

theorem gid_mem_upsertBy {α : Type} (gid : α → Int) (l : List α) (a : α) :
    gid a ∈ (upsertBy gid l a).map gid := by
  unfold upsertBy
  split
  · next hyes =>
    rcases hyes with ⟨y, hy, hgy⟩
    exact List.mem_map.mpr ⟨a, List.mem_map.mpr ⟨y, hy, by rw [if_pos hgy]⟩, rfl⟩
  · exact List.mem_map.mpr ⟨a, List.mem_append.mpr (Or.inr (List.mem_singleton.mpr rfl)), rfl⟩

theorem mem_map_gid_upsertBy {α : Type} (gid : α → Int) (l : List α) (a : α) (q : Int)
    (hq : q ∈ l.map gid) : q ∈ (upsertBy gid l a).map gid := by
  rcases List.mem_map.mp hq with ⟨y, hy, hgy⟩
  by_cases hya : gid y = gid a
  · rw [← hgy, hya]; exact gid_mem_upsertBy gid l a
  · unfold upsertBy
    split
    · exact List.mem_map.mpr ⟨y, List.mem_map.mpr ⟨y, hy, by rw [if_neg hya]⟩, hgy⟩
    · exact List.mem_map.mpr ⟨y, List.mem_append.mpr (Or.inl hy), hgy⟩

theorem upsertBy_eq_self {α : Type} (gid : α → Int) (l : List α) (a : α)
    (h1 : ∀ x ∈ l, gid x = gid a → x = a) (h2 : gid a ∈ l.map gid) :
    upsertBy gid l a = l := by
  unfold upsertBy
  rcases List.mem_map.mp h2 with ⟨y, hy, hgy⟩
  rw [if_pos ⟨y, hy, hgy⟩]
  have : ∀ x ∈ l, (if gid x = gid a then a else x) = x := by
    intro x hx
    by_cases hgx : gid x = gid a
    · rw [if_pos hgx, h1 x hx hgx]
    · rw [if_neg hgx]
  calc l.map (fun x => if gid x = gid a then a else x) = l.map id := List.map_congr_left this
    _ = l := List.map_id l

theorem upsertBy_idem {α : Type} (gid : α → Int) (l : List α) (a : α) :
    upsertBy gid (upsertBy gid l a) a = upsertBy gid l a :=
  upsertBy_eq_self gid _ a (upsertBy_mem_eq gid l a) (gid_mem_upsertBy gid l a)

/-! ## Idempotence of a fold of upserts -/

theorem goodFor_upsert_same {α : Type} (gid : α → Int) (v : Int → α) (pid : Int) (l : List α)
    (hv : gid (v pid) = pid) : goodFor gid v pid (upsertBy gid l (v pid)) := by
  constructor
  · have h := gid_mem_upsertBy gid l (v pid); rwa [hv] at h
  · intro x hx hgx
    exact upsertBy_mem_eq gid l (v pid) x hx (by rw [hgx, hv])

theorem goodFor_upsert_other {α : Type} (gid : α → Int) (v : Int → α) (pid : Int) (l : List α)
    (a : α) (ha : gid a ≠ pid) (h : goodFor gid v pid l) :
    goodFor gid v pid (upsertBy gid l a) := by
  refine ⟨mem_map_gid_upsertBy gid l a pid h.1, ?_⟩
  intro x hx hgx
  have hxl : x ∈ l := upsertBy_mem_ne gid l a x hx (by rw [hgx]; exact fun hc => ha hc.symm)
  exact h.2 x hxl hgx

theorem goodFor_foldl {α : Type} (gid : α → Int) (v : Int → α) (pid : Int)
    (hv : ∀ p, gid (v p) = p) (ps : List Int) :
    ∀ l : List α, goodFor gid v pid l →
      goodFor gid v pid (ps.foldl (fun acc p => upsertBy gid acc (v p)) l) := by
  induction ps with
  | nil => intro l h; exact h
  | cons p ps ih =>
    intro l h
    simp only [List.foldl_cons]
    apply ih
    by_cases hp : p = pid
    · subst hp; exact goodFor_upsert_same gid v p l (hv p)
    · exact goodFor_upsert_other gid v pid l (v p) (by rw [hv p]; exact hp) h

theorem goodFor_foldl_establishes {α : Type} (gid : α → Int) (v : Int → α)
    (hv : ∀ p, gid (v p) = p) (ps : List Int) :
    ∀ l : List α, ∀ pid ∈ ps, goodFor gid v pid (ps.foldl (fun acc p => upsertBy gid acc (v p)) l) := by
  induction ps with
  | nil => intro l pid h; simp at h
  | cons p ps ih =>
    intro l pid hpid
    simp only [List.foldl_cons]
    rcases List.mem_cons.mp hpid with h | h
    · subst h
      exact goodFor_foldl gid v pid hv ps _ (goodFor_upsert_same gid v pid l (hv pid))
    · exact ih _ pid h

theorem foldl_upsert_fixed {α : Type} (gid : α → Int) (v : Int → α)
    (hv : ∀ p, gid (v p) = p) (ps : List Int) :
    ∀ l : List α, (∀ pid ∈ ps, goodFor gid v pid l) →
      ps.foldl (fun acc p => upsertBy gid acc (v p)) l = l := by
  induction ps with
  | nil => intro l _; rfl
  | cons p ps ih =>
    intro l h
    have hp := h p (List.mem_cons_self p ps)
    have hfix : upsertBy gid l (v p) = l := by
      apply upsertBy_eq_self gid l (v p)
      · intro x hx hgx; exact hp.2 x hx (by rw [← hv p]; exact hgx)
      · rw [hv p]; exact hp.1
    simp only [List.foldl_cons, hfix]
    exact ih l (fun pid hpid => h pid (List.mem_cons_of_mem p hpid))

theorem foldl_upsert_idem {α : Type} (gid : α → Int) (v : Int → α)
    (hv : ∀ p, gid (v p) = p) (ps : List Int) (l : List α) :
    ps.foldl (fun acc p => upsertBy gid acc (v p))
      (ps.foldl (fun acc p => upsertBy gid acc (v p)) l) =
    ps.foldl (fun acc p => upsertBy gid acc (v p)) l :=
  foldl_upsert_fixed gid v hv ps _ (fun pid hpid => goodFor_foldl_establishes gid v hv ps l pid hpid)

/-! ## Lemmas about the deduplication helper -/

theorem dedupGo_sublist (seen : List (Int × Int)) (l : List AssocRow) :
    List.Sublist (dedupGo seen l) l := by
  induction l generalizing seen with
  | nil => simp [dedupGo]
  | cons item rest ih =>
    unfold dedupGo
    split
    · exact (ih seen).trans (List.sublist_cons_self item rest)
    · exact (ih (itemKey item :: seen)).cons₂ item

theorem dedupGo_countP_of_mem_seen (seen : List (Int × Int)) (l : List AssocRow)
    (k : Int × Int) (hk : k ∈ seen) :
    (dedupGo seen l).countP (fun i => decide (itemKey i = k)) = 0 := by
  induction l generalizing seen with
  | nil => simp [dedupGo]
  | cons item rest ih =>
    unfold dedupGo
    split
    · exact ih seen hk
    · next hno =>
      rw [List.countP_cons]
      have hne : ¬ itemKey item = k := fun h => hno (h ▸ hk)
      simp only [hne, decide_eq_true_eq, if_false, decide_False, Nat.add_zero]
      exact ih (itemKey item :: seen) (List.mem_cons_of_mem _ hk)

theorem dedupGo_countP_eq_one (seen : List (Int × Int)) (l : List AssocRow)
    (k : Int × Int) (hks : k ∉ seen) (hkl : k ∈ l.map itemKey) :
    (dedupGo seen l).countP (fun i => decide (itemKey i = k)) = 1 := by
  induction l generalizing seen with
  | nil => simp at hkl
  | cons item rest ih =>
    unfold dedupGo
    split
    · next hin =>
      have hne : itemKey item ≠ k := fun h => hks (h ▸ hin)
      rcases List.mem_map.mp hkl with ⟨j, hj, hjk⟩
      rcases List.mem_cons.mp hj with h | h
      · exact absurd (h ▸ hjk) hne
      · exact ih seen hks (List.mem_map.mpr ⟨j, h, hjk⟩)
    · next hno =>
      rw [List.countP_cons]
      by_cases hik : itemKey item = k
      · rw [dedupGo_countP_of_mem_seen _ rest k (by rw [← hik]; exact List.mem_cons_self _ _)]
        simp [hik]
      · simp only [hik, decide_False, if_false, Nat.add_zero]
        rcases List.mem_map.mp hkl with ⟨j, hj, hjk⟩
        rcases List.mem_cons.mp hj with h | h
        · exact absurd (h ▸ hjk) hik
        · exact ih (itemKey item :: seen)
            (by intro hc; rcases List.mem_cons.mp hc with h' | h'
                · exact hik h'.symm
                · exact hks h')
            (List.mem_map.mpr ⟨j, h, hjk⟩)

theorem dedupGo_find? (seen : List (Int × Int)) (l : List AssocRow) :
    ∀ i ∈ dedupGo seen l, itemKey i ∉ seen ∧
      l.find? (fun j => decide (itemKey j = itemKey i)) = some i := by
  induction l generalizing seen with
  | nil => simp [dedupGo]
  | cons item rest ih =>
    intro i hi
    unfold dedupGo at hi
    split at hi
    · next hin =>
      rcases ih seen i hi with ⟨hnot, hfind⟩
      have hne : itemKey item ≠ itemKey i := fun h => hnot (h ▸ hin)
      refine ⟨hnot, ?_⟩
      rw [List.find?_cons_of_neg _ (by simpa using hne), hfind]
    · next hno =>
      rcases List.mem_cons.mp hi with h | h
      · subst h
        exact ⟨hno, List.find?_cons_of_pos _ (by simp)⟩
      · rcases ih (itemKey item :: seen) i h with ⟨hnot, hfind⟩
        have hne : itemKey item ≠ itemKey i :=
          fun hc => hnot (hc ▸ List.mem_cons_self _ _)
        refine ⟨fun hc => hnot (List.mem_cons_of_mem _ hc), ?_⟩
        rw [List.find?_cons_of_neg _ (by simpa using hne), hfind]

/-! ## Bridges between the association existence check and item keys -/

theorem countAssoc_eq_countP (l : List AssocRow) (oid pid : Int) :
    countAssoc l oid pid = l.countP (fun i => decide (itemKey i = (oid, pid))) := by
  unfold countAssoc
  rw [List.countP_eq_length_filter]
  congr 1
  apply List.filter_congr
  intro row _
  simp [itemKey, Prod.ext_iff]

theorem countAssoc_append (l1 l2 : List AssocRow) (oid pid : Int) :
    countAssoc (l1 ++ l2) oid pid = countAssoc l1 oid pid + countAssoc l2 oid pid := by
  unfold countAssoc
  rw [List.filter_append, List.length_append]

theorem countAssoc_eq_zero_iff (l : List AssocRow) (oid pid : Int) :
    countAssoc l oid pid = 0 ↔ ∀ row ∈ l, ¬(row.order_id = oid ∧ row.product_id = pid) := by
  unfold countAssoc
  rw [List.length_eq_zero, List.filter_eq_nil_iff]
  constructor
  · intro h row hrow hc; exact absurd (by simpa using hc) (by simpa using h row hrow)
  · intro h row hrow; simpa using h row hrow

theorem itemKey_mem_stage_iff (assocs : List AssocRow) (oid : Int) (pids : List Int) (pid : Int) :
    (oid, pid) ∈ (stageAssocItems assocs oid pids).map itemKey ↔
      pid ∈ pids ∧ countAssoc assocs oid pid = 0 := by
  unfold stageAssocItems
  rw [List.map_map]
  constructor
  · intro h
    rcases List.mem_map.mp h with ⟨q, hq, hkey⟩
    have : oid = oid ∧ q = pid := by
      simpa [itemKey, Prod.ext_iff] using hkey
    rcases List.mem_filter.mp hq with ⟨hmem, hpass⟩
    rw [← this.2]
    exact ⟨hmem, by simpa using hpass⟩
  · intro ⟨hmem, hzero⟩
    exact List.mem_map.mpr ⟨pid, List.mem_filter.mpr ⟨hmem, by simpa using hzero⟩,
      by simp [itemKey]⟩

theorem mem_stage_elim (assocs : List AssocRow) (oid : Int) (pids : List Int) :
    ∀ i ∈ stageAssocItems assocs oid pids,
      i.order_id = oid ∧ i.product_id ∈ pids ∧ i.quantity = pids.count i.product_id ∧
        countAssoc assocs oid i.product_id = 0 := by
  intro i hi
  unfold stageAssocItems at hi
  rcases List.mem_map.mp hi with ⟨q, hq, hqi⟩
  rcases List.mem_filter.mp hq with ⟨hmem, hpass⟩
  subst hqi
  exact ⟨rfl, hmem, rfl, by simpa using hpass⟩

/-! ## The success path of one line -/

theorem collectProducts_valid (oid : Int) (entries : List ProductEntry)
    (hval : ∀ e ∈ entries, e.id.isSome = true ∧ e.name.isSome = true ∧ e.price.isSome = true) :
    collectProducts oid entries = .ok ([], entries.filterMap (fun e => e.id)) := by
  induction entries with
  | nil => rfl
  | cons e rest ih =>
    rcases hval e (List.mem_cons_self e rest) with ⟨hid, hname, hprice⟩
    rcases Option.isSome_iff_exists.mp hid with ⟨pid, hpid⟩
    rcases Option.isSome_iff_exists.mp hname with ⟨nm, hnm⟩
    rcases Option.isSome_iff_exists.mp hprice with ⟨pr, hpr⟩
    have hverr : productValidationErrors oid e = [] := by
      unfold productValidationErrors
      simp [hpid, hnm, hpr]
    unfold collectProducts
    rw [hpid, ih (fun x hx => hval x (List.mem_cons_of_mem e hx)), hverr]
    simp [List.filterMap_cons, hpid]

theorem productsPhase_valid (db1 : DB) (oid : Int) (entries : List ProductEntry)
    (hval : ∀ e ∈ entries, e.id.isSome = true ∧ e.name.isSome = true ∧ e.price.isSome = true) :
    productsPhase db1 oid [] entries =
      .ok ⟨db1.users, productsFold db1.products entries, db1.orders,
           db1.assocs ++ deduplicateListOfOrderProductItems
             (stageAssocItems db1.assocs oid (entries.filterMap (fun e => e.id)))⟩ [] := by
  unfold productsPhase
  rw [collectProducts_valid oid entries hval]
  rcases hE : entries.filterMap (fun e => e.id) with _ | ⟨p, ps⟩
  · have hnil : entries = [] := by
      cases entries with
      | nil => rfl
      | cons e es =>
        rcases Option.isSome_iff_exists.mp (hval e (List.mem_cons_self e es)).1 with ⟨pid, hpid⟩
        rw [List.filterMap_cons, hpid] at hE
        exact absurd hE (by simp)
    subst hnil
    rfl
  · have hne : entries ≠ [] := by
      intro h; subst h; simp at hE
    have hlast : entries.getLast? = some (entries.getLast hne) :=
      List.getLast?_eq_getLast entries hne
    have hlmem : entries.getLast hne ∈ entries := List.getLast_mem hne
    rcases hval _ hlmem with ⟨-, hn, hp⟩
    rcases Option.isSome_iff_exists.mp hn with ⟨lname, hnm⟩
    rcases Option.isSome_iff_exists.mp hp with ⟨lprice, hpr⟩
    have hfold : productsFold db1.products entries =
        (p :: ps).foldl
          (fun acc pid => upsertBy (fun pr => pr.id) acc ⟨pid, lname, lprice⟩) db1.products := by
      unfold productsFold lastNamePrice
      rw [hE, hlast]
      simp [hnm, hpr]
    simp only [hE, hlast, hnm, hpr]
    unfold finishProducts insertAssocPhase
    rw [← hfold]
    rfl

theorem processLine_ok_spec (db : DB) (oid uid cr : Int) (un uc : String)
    (entries : List ProductEntry)
    (hval : ∀ e ∈ entries, e.id.isSome = true ∧ e.name.isSome = true ∧ e.price.isSome = true) :
    processLine db ⟨some oid, some cr, some ⟨some uid, some un, some uc⟩, some entries⟩ =
      .ok ⟨upsertBy (fun x => x.id) db.users ⟨uid, un, uc⟩,
           productsFold db.products entries,
           upsertBy (fun x => x.id) db.orders ⟨oid, uid, cr⟩,
           db.assocs ++ deduplicateListOfOrderProductItems
             (stageAssocItems db.assocs oid (entries.filterMap (fun e => e.id)))⟩ [] := by
  have h := productsPhase_valid
    { db with users := upsertBy (fun x => x.id) db.users ⟨uid, un, uc⟩,
              orders := upsertBy (fun x => x.id) db.orders ⟨oid, uid, cr⟩ }
    oid entries hval
  exact h

/-- C1: loading a valid order record whose products array contains product
id `pid` exactly `k ≥ 1` times, into a store that has no association row
for `(oid, pid)` yet, leaves exactly one association row for that pair and
its quantity is `k`. -/
theorem C1_association_quantity (db : DB) (oid uid cr : Int) (un uc : String)
    (entries : List ProductEntry) (pid : Int) (k : Nat)
    (hval : ∀ e ∈ entries, e.id.isSome = true ∧ e.name.isSome = true ∧ e.price.isSome = true)
    (hk : (entries.filterMap (fun e => e.id)).count pid = k)
    (hk1 : 1 ≤ k)
    (hfresh : countAssoc db.assocs oid pid = 0) :
    ∃ db' : DB, ∃ errs : List String,
      processLine db ⟨some oid, some cr, some ⟨some uid, some un, some uc⟩, some entries⟩ =
        .ok db' errs
      ∧ countAssoc db'.assocs oid pid = 1
      ∧ ∀ row ∈ db'.assocs, row.order_id = oid → row.product_id = pid → row.quantity = k := by
  refine ⟨_, _, processLine_ok_spec db oid uid cr un uc entries hval, ?_, ?_⟩
  case _ =>
    have hpid_mem : pid ∈ entries.filterMap (fun e => e.id) := by
      have : 0 < (entries.filterMap (fun e => e.id)).count pid := by omega
      exact List.count_pos_iff.mp this
    have hkey : (oid, pid) ∈ (stageAssocItems db.assocs oid
        (entries.filterMap (fun e => e.id))).map itemKey :=
      (itemKey_mem_stage_iff db.assocs oid _ pid).mpr ⟨hpid_mem, hfresh⟩
    rw [countAssoc_append, hfresh, countAssoc_eq_countP]
    rw [deduplicateListOfOrderProductItems,
      dedupGo_countP_eq_one [] _ (oid, pid) (List.not_mem_nil _) hkey]
  case _ =>
    intro row hrow ho hp
    rcases List.mem_append.mp hrow with h | h
    · exact absurd ⟨ho, hp⟩ ((countAssoc_eq_zero_iff db.assocs oid pid).mp hfresh row h)
    · have hstage : row ∈ stageAssocItems db.assocs oid (entries.filterMap (fun e => e.id)) :=
        (dedupGo_sublist [] _).subset h
      rcases mem_stage_elim db.assocs oid _ row hstage with ⟨-, -, hq, -⟩
      rw [hq, hp, hk]

theorem countAssoc_after_insert (A : List AssocRow) (oid : Int) (pids : List Int) :
    ∀ p ∈ pids,
      countAssoc (A ++ deduplicateListOfOrderProductItems (stageAssocItems A oid pids)) oid p ≠ 0 := by
  intro p hp
  rw [countAssoc_append]
  by_cases hz : countAssoc A oid p = 0
  · have hkey : (oid, p) ∈ (stageAssocItems A oid pids).map itemKey :=
      (itemKey_mem_stage_iff A oid pids p).mpr ⟨hp, hz⟩
    have h1 : countAssoc (deduplicateListOfOrderProductItems (stageAssocItems A oid pids)) oid p = 1 := by
      rw [countAssoc_eq_countP, deduplicateListOfOrderProductItems,
        dedupGo_countP_eq_one [] _ (oid, p) (List.not_mem_nil _) hkey]
    omega
  · omega

theorem stageAssocItems_eq_nil (A : List AssocRow) (oid : Int) (pids : List Int)
    (h : ∀ p ∈ pids, countAssoc A oid p ≠ 0) :
    stageAssocItems A oid pids = [] := by
  unfold stageAssocItems
  rw [List.map_eq_nil_iff, List.filter_eq_nil_iff]
  intro p hp
  simpa using h p hp

/-- C5: reloading the same valid order record is idempotent on the store:
the second load returns exactly the store produced by the first load (no
row of any table is added, removed or changed, and in particular every
association row keeps the quantity it got from the first load) and writes
the same (empty) error report. -/
theorem C5_idempotent_reload (db : DB) (oid uid cr : Int) (un uc : String)
    (entries : List ProductEntry)
    (hval : ∀ e ∈ entries, e.id.isSome = true ∧ e.name.isSome = true ∧ e.price.isSome = true)
    (db1 : DB) (errs1 : List String)
    (h1 : processLine db ⟨some oid, some cr, some ⟨some uid, some un, some uc⟩, some entries⟩ =
      .ok db1 errs1) :
    processLine db1 ⟨some oid, some cr, some ⟨some uid, some un, some uc⟩, some entries⟩ =
      .ok db1 errs1 := by
  have hspec := processLine_ok_spec db oid uid cr un uc entries hval
  rw [h1] at hspec
  injection hspec with hdb herrs
  subst hdb
  subst herrs
  rw [processLine_ok_spec _ oid uid cr un uc entries hval]
  congr 1
  refine DB.ext ?_ ?_ ?_ ?_
  · exact upsertBy_idem (fun x => x.id) db.users ⟨uid, un, uc⟩
  · show productsFold (productsFold db.products entries) entries = productsFold db.products entries
    unfold productsFold
    exact foldl_upsert_idem (fun p => p.id)
      (fun pid => ⟨pid, (lastNamePrice entries).1, (lastNamePrice entries).2⟩)
      (fun p => rfl) _ db.products
  · exact upsertBy_idem (fun x => x.id) db.orders ⟨oid, uid, cr⟩
  · show _ ++ deduplicateListOfOrderProductItems (stageAssocItems _ oid _) = _
    rw [stageAssocItems_eq_nil _ oid _ (countAssoc_after_insert db.assocs oid _)]
    simp [deduplicateListOfOrderProductItems, dedupGo]

/-- C7: deduplication keeps, for each (order_id, product_id) key of the
input, exactly one item — the first occurrence, unchanged (so its quantity
is preserved) — and the output is a sublist of the input, so the relative
order of kept items matches the input. -/
theorem C7_dedup_first_occurrence (l : List AssocRow) :
    List.Sublist (deduplicateListOfOrderProductItems l) l
    ∧ (∀ k ∈ l.map itemKey,
        (deduplicateListOfOrderProductItems l).countP (fun i => decide (itemKey i = k)) = 1)
    ∧ (∀ i ∈ deduplicateListOfOrderProductItems l,
        l.find? (fun j => decide (itemKey j = itemKey i)) = some i) := by
  refine ⟨dedupGo_sublist [] l, ?_, ?_⟩
  · intro k hk
    exact dedupGo_countP_eq_one [] l k (List.not_mem_nil _) hk
  · intro i hi
    exact (dedupGo_find? [] l i hi).2

/-- C2 fails on the code: the second products loop (src/main.py lines
158-162) reads `product_data['name']` and `product_data['price']` from the
loop variable left over from the first loop, i.e. from the LAST entry of
the products array. On an order with entries (id 1, "A", 1) and
(id 2, "B", 2), product 1 is stored as ("B", 2), not with its own entry's
name and price. -/
theorem C2_product_name_price_bug :
    processLine emptyDB ⟨some 7, some 100, some ⟨some 1, some "Alice", some "Prague"⟩,
        some [⟨some 1, some "A", some 1⟩, ⟨some 2, some "B", some 2⟩]⟩ =
      .ok ⟨[⟨1, "Alice", "Prague"⟩], [⟨1, "B", 2⟩, ⟨2, "B", 2⟩], [⟨7, 1, 100⟩],
           [⟨7, 1, 1⟩, ⟨7, 2, 1⟩]⟩ [] := by
  rfl

/-- C3 counterexample: at this concrete input (first line's user lacks
`city`), the load neither produces a User row nor continues: it crashes
with the store still empty, the second line is never processed and no
counter is reported. -/
theorem C3_missing_city_counterexample :
    loadDataFromFile emptyDB
        [Line.record ⟨some 7, some 100, some ⟨some 1, some "Alice", none⟩, some []⟩,
         Line.record ⟨some 8, some 100, some ⟨some 2, some "Bob", some "Brno"⟩, some []⟩] =
      .crashed emptyDB [userMissingMsg 7 "city"] "city"
    ∧ emptyDB.users = [] := by
  exact ⟨rfl, rfl⟩

/-- C3 amended: a line whose user object lacks `city` (all other required
fields present) gets the validation report on the error stream, but the
subsequent `user_data['city']` lookup raises an uncaught KeyError: no User
row is written (the store comes back unchanged), the load aborts, the
remaining lines are never processed and no line counter is reported. -/
theorem C3_missing_city_aborts (db : DB) (oid uid cr : Int) (un : String)
    (ps : List ProductEntry) (errs : List String) (n : Nat) (rest : List Line) :
    processLine db ⟨some oid, some cr, some ⟨some uid, some un, none⟩, some ps⟩ =
      .keyError db [userMissingMsg oid "city"] "city"
    ∧ loadAux db errs n
        (Line.record ⟨some oid, some cr, some ⟨some uid, some un, none⟩, some ps⟩ :: rest) =
      .crashed db (errs ++ [userMissingMsg oid "city"]) "city" := by
  exact ⟨rfl, rfl⟩

/-! ## The loader around a malformed line -/

theorem loadAux_bad (post : List Line) :
    ∀ (pre : List OrderRecord) (db : DB) (errs : List String) (n : Nat),
      allOk db pre = true →
      loadAux db errs n (pre.map Line.record ++ Line.bad :: post) =
        .done (runState db pre) (errs ++ runErrs db pre ++ [incorrectFormatMsg])
          (n + pre.length) := by
  intro pre
  induction pre with
  | nil =>
    intro db errs n _
    simp [loadAux, runState, runErrs]
  | cons r rest ih =>
    intro db errs n h
    unfold allOk at h
    cases hpl : processLine db r with
    | ok db' e =>
      rw [hpl] at h
      simp only [List.map_cons, List.cons_append, loadAux, hpl, List.append_eq]
      rw [ih db' (errs ++ e) (n + 1) h]
      simp only [runState, runErrs, hpl]
      have hn : n + 1 + rest.length = n + (rest.length + 1) := by omega
      rw [List.append_assoc, hn]
      simp [List.length_cons]
    | keyError db' e k =>
      rw [hpl] at h
      exact absurd h (by simp)

theorem main2LoadAux_bad (post : List Line) :
    ∀ (pre : List OrderRecord) (db : DB) (errs : List String) (n : Nat),
      allOk db pre = true →
      main2LoadAux db errs n (pre.map Line.record ++ Line.bad :: post) =
        .crashed (runState db pre) (errs ++ runErrs db pre) jsonDecodeExn := by
  intro pre
  induction pre with
  | nil =>
    intro db errs n _
    simp [main2LoadAux, runState, runErrs]
  | cons r rest ih =>
    intro db errs n h
    unfold allOk at h
    cases hpl : processLine db r with
    | ok db' e =>
      rw [hpl] at h
      simp only [List.map_cons, List.cons_append, main2LoadAux, hpl, List.append_eq]
      rw [ih db' (errs ++ e) (n + 1) h]
      simp only [runState, runErrs, hpl]
      rw [List.append_assoc]
    | keyError db' e k =>
      rw [hpl] at h
      exact absurd h (by simp)

/-- C4 counterexample: at this concrete input, the loader of src/main2.py
(one of the two cited load functions) raises the decode exception uncaught:
nothing is written to the error stream by the program and no
total-lines-processed counter is ever reported, so the claim fails for it. -/
theorem C4_malformed_json_counterexample :
    main2LoadDataFromFile emptyDB
        [Line.bad,
         Line.record ⟨some 8, some 100, some ⟨some 2, some "Bob", some "Brno"⟩, some []⟩] =
      .crashed emptyDB [] jsonDecodeExn := by
  rfl

/-- C4 amended: in src/main.py's loader a malformed JSON line is reported to
the error stream and stops the load, no line after it is processed (the
outcome does not depend on `post`), and the reported counter equals the
number of lines fully processed strictly before the malformed line; in
src/main2.py's loader the malformed line instead raises an uncaught decode
exception, so lines after it are equally never processed but no report and
no counter are emitted. -/
theorem C4_malformed_json_halts (db : DB) (pre : List OrderRecord) (post : List Line)
    (h : allOk db pre = true) :
    loadDataFromFile db (pre.map Line.record ++ Line.bad :: post) =
      .done (runState db pre) (runErrs db pre ++ [incorrectFormatMsg]) pre.length
    ∧ main2LoadDataFromFile db (pre.map Line.record ++ Line.bad :: post) =
      .crashed (runState db pre) (runErrs db pre) jsonDecodeExn := by
  constructor
  · have hx := loadAux_bad post pre db [] 0 h
    simpa [loadDataFromFile] using hx
  · have hx := main2LoadAux_bad post pre db [] 0 h
    simpa [main2LoadDataFromFile] using hx

/-- C6: on a commit the database refuses, `__try_commit` rolls the
transaction back — the committed store is exactly the one from before the
call and the pending writes are discarded — appends one report to the error
stream and returns normally (no retry is attempted, the returned session
continues to be used); on a commit that succeeds it applies the pending
writes. -/
theorem C6_commit_failure_rollback (sess : SessionState) (log : List String) :
    tryCommit sess true log = (⟨sess.committed, []⟩, log ++ [commitErrorMsg])
    ∧ tryCommit sess false log = (⟨sess.pending.foldl applyOp sess.committed, []⟩, log) := by
  exact ⟨rfl, rfl⟩

/-! ## Sorting by `created` ascending -/

theorem insertByCreated_perm (o : OrderRow) (l : List OrderRow) :
    List.Perm (insertByCreated o l) (o :: l) := by
  induction l with
  | nil => exact List.Perm.refl _
  | cons x xs ih =>
    unfold insertByCreated
    split
    · exact List.Perm.refl _
    · exact (List.Perm.cons x ih).trans (List.Perm.swap o x xs)

theorem sortByCreated_perm (l : List OrderRow) : List.Perm (sortByCreated l) l := by
  induction l with
  | nil => exact List.Perm.refl _
  | cons x xs ih =>
    exact (insertByCreated_perm x (sortByCreated xs)).trans (List.Perm.cons x ih)

theorem insertByCreated_pairwise (o : OrderRow) (l : List OrderRow)
    (h : l.Pairwise (fun a b => a.created ≤ b.created)) :
    (insertByCreated o l).Pairwise (fun a b => a.created ≤ b.created) := by
  induction l with
  | nil => simp [insertByCreated]
  | cons x xs ih =>
    rcases List.pairwise_cons.mp h with ⟨hx, hxs⟩
    unfold insertByCreated
    split
    · next hle =>
      exact List.pairwise_cons.mpr ⟨by
        intro y hy
        rcases List.mem_cons.mp hy with rfl | hy'
        · exact hle
        · exact le_trans hle (hx y hy'), h⟩
    · next hgt =>
      refine List.pairwise_cons.mpr ⟨?_, ih hxs⟩
      intro y hy
      rcases List.mem_cons.mp ((insertByCreated_perm o xs).mem_iff.mp hy) with rfl | hy'
      · exact le_of_not_le hgt
      · exact hx y hy'

theorem sortByCreated_pairwise (l : List OrderRow) :
    (sortByCreated l).Pairwise (fun a b => a.created ≤ b.created) := by
  induction l with
  | nil => simp [sortByCreated]
  | cons x xs ih => exact insertByCreated_pairwise x (sortByCreated xs) ih

theorem expandRows_length (rows : List AssocRow) :
    (expandRows rows).length = (rows.map (fun row => row.quantity)).sum := by
  induction rows with
  | nil => rfl
  | cons row rest ih =>
    unfold expandRows
    rw [List.length_append, List.length_replicate, List.map_cons, List.sum_cons, ih]

/-- C8: the time-range query returns exactly the orders with `created`
inclusively between the bounds, in ascending `created` order, and each
result's product id list has length equal to the sum of the quantities of
that order's association rows. -/
theorem C8_orders_in_time_range (db : DB) (s e : Int) :
    (∀ o ∈ getOrdersInTimeRange db s e, s ≤ o.created ∧ o.created ≤ e)
    ∧ (∀ ord ∈ db.orders, s ≤ ord.created → ord.created ≤ e →
        ∃ o ∈ getOrdersInTimeRange db s e,
          o.id = ord.id ∧ o.user_id = ord.user_id ∧ o.created = ord.created)
    ∧ (getOrdersInTimeRange db s e).Pairwise (fun a b => a.created ≤ b.created)
    ∧ (∀ o ∈ getOrdersInTimeRange db s e,
        o.product_ids.length =
          ((db.assocs.filter (fun row => decide (row.order_id = o.id))).map
            (fun row => row.quantity)).sum) := by
  refine ⟨?_, ?_, ?_, ?_⟩
  · intro o ho
    rcases List.mem_map.mp ho with ⟨ord, hord, rfl⟩
    have hmem := (sortByCreated_perm _).mem_iff.mp hord
    rcases List.mem_filter.mp hmem with ⟨-, hpass⟩
    exact of_decide_eq_true hpass
  · intro ord hord hs he
    have hmem : ord ∈ db.orders.filter (fun o => decide (s ≤ o.created ∧ o.created ≤ e)) :=
      List.mem_filter.mpr ⟨hord, decide_eq_true ⟨hs, he⟩⟩
    refine ⟨⟨ord.id, ord.user_id, getProductIdsForOrder db ord.id, ord.created⟩, ?_, rfl, rfl, rfl⟩
    exact List.mem_map.mpr ⟨ord, (sortByCreated_perm _).mem_iff.mpr hmem, rfl⟩
  · exact List.Pairwise.map _ (fun a b hab => hab) (sortByCreated_pairwise _)
  · intro o ho
    rcases List.mem_map.mp ho with ⟨ord, hord, rfl⟩
    exact expandRows_length _

/-! ## Sorting the per-user aggregate descending -/

theorem insertDescBySnd_perm (a : Int × Nat) (l : List (Int × Nat)) :
    List.Perm (insertDescBySnd a l) (a :: l) := by
  induction l with
  | nil => exact List.Perm.refl _
  | cons x xs ih =>
    unfold insertDescBySnd
    split
    · exact List.Perm.refl _
    · exact (List.Perm.cons x ih).trans (List.Perm.swap a x xs)

theorem sortDescBySnd_perm (l : List (Int × Nat)) : List.Perm (sortDescBySnd l) l := by
  induction l with
  | nil => exact List.Perm.refl _
  | cons x xs ih =>
    exact (insertDescBySnd_perm x (sortDescBySnd xs)).trans (List.Perm.cons x ih)

theorem insertDescBySnd_pairwise (a : Int × Nat) (l : List (Int × Nat))
    (h : l.Pairwise (fun p q => q.2 ≤ p.2)) :
    (insertDescBySnd a l).Pairwise (fun p q => q.2 ≤ p.2) := by
  induction l with
  | nil => simp [insertDescBySnd]
  | cons x xs ih =>
    rcases List.pairwise_cons.mp h with ⟨hx, hxs⟩
    unfold insertDescBySnd
    split
    · next hle =>
      exact List.pairwise_cons.mpr ⟨by
        intro y hy
        rcases List.mem_cons.mp hy with rfl | hy'
        · exact hle
        · exact le_trans (hx y hy') hle, h⟩
    · next hgt =>
      refine List.pairwise_cons.mpr ⟨?_, ih hxs⟩
      intro y hy
      rcases List.mem_cons.mp ((insertDescBySnd_perm a xs).mem_iff.mp hy) with rfl | hy'
      · exact le_of_not_le hgt
      · exact hx y hy'

theorem sortDescBySnd_pairwise (l : List (Int × Nat)) :
    (sortDescBySnd l).Pairwise (fun p q => q.2 ≤ p.2) := by
  induction l with
  | nil => simp [sortDescBySnd]
  | cons x xs ih => exact insertDescBySnd_pairwise x (sortDescBySnd xs) ih

theorem mem_distinctKeys (x : Int) :
    ∀ (l : List Int) (seen : List Int), x ∈ distinctKeys seen l ↔ (x ∈ l ∧ x ∉ seen) := by
  intro l
  induction l with
  | nil => intro seen; simp [distinctKeys]
  | cons y ys ih =>
    intro seen
    unfold distinctKeys
    split
    · next hy =>
      rw [ih seen]
      constructor
      · intro ⟨h1, h2⟩; exact ⟨List.mem_cons_of_mem y h1, h2⟩
      · intro ⟨h1, h2⟩
        rcases List.mem_cons.mp h1 with rfl | h1'
        · exact absurd hy h2
        · exact ⟨h1', h2⟩
    · next hy =>
      constructor
      · intro hmem
        rcases List.mem_cons.mp hmem with rfl | h1
        · exact ⟨List.mem_cons_self x ys, hy⟩
        · rcases (ih (y :: seen)).mp h1 with ⟨h2, h3⟩
          exact ⟨List.mem_cons_of_mem y h2,
            fun hc => h3 (List.mem_cons_of_mem y hc)⟩
      · intro ⟨h1, h2⟩
        rcases List.mem_cons.mp h1 with rfl | h1'
        · exact List.mem_cons_self x _
        · by_cases hxy : x = y
          · subst hxy; exact List.mem_cons_self x _
          · have hns : x ∉ y :: seen := by
              intro hc
              rcases List.mem_cons.mp hc with h | h
              · exact hxy h
              · exact h2 h
            exact List.mem_cons_of_mem y ((ih (y :: seen)).mpr ⟨h1', hns⟩)

/-! ## Exchanging the per-order and per-row views of the purchase count -/

theorem orderQuantitySum_eq_rows (db : DB) (oid : Int) :
    orderQuantitySum db oid = rowsQuantitySum db.assocs oid := rfl

theorem rowsQuantitySum_cons (r : AssocRow) (rs : List AssocRow) (oid : Int) :
    rowsQuantitySum (r :: rs) oid =
      (if r.order_id = oid then r.quantity else 0) + rowsQuantitySum rs oid := by
  by_cases h : r.order_id = oid <;> simp [rowsQuantitySum, h]

theorem rowsQuantitySum_eq_zero (rows : List AssocRow) (oid : Int)
    (h : rows.any (fun r => r.order_id == oid) = false) :
    rowsQuantitySum rows oid = 0 := by
  unfold rowsQuantitySum
  have : rows.filter (fun r => decide (r.order_id = oid)) = [] := by
    rw [List.filter_eq_nil_iff]
    intro r hr
    have := List.any_eq_false.mp h r hr
    simpa using this
  rw [this]
  rfl

theorem sum_map_add {α : Type} (f g : α → Nat) (l : List α) :
    (l.map (fun x => f x + g x)).sum = (l.map f).sum + (l.map g).sum := by
  induction l with
  | nil => rfl
  | cons x xs ih => simp [ih]; omega

theorem sum_ite_zero (os : List OrderRow) (r0 : Int) (q : Nat)
    (h : ∀ o ∈ os, ¬(r0 = o.id)) :
    (os.map (fun o => if r0 = o.id then q else 0)).sum = 0 := by
  induction os with
  | nil => rfl
  | cons o os' ih =>
    rw [List.map_cons, List.sum_cons, if_neg (h o (List.mem_cons_self o os')),
      ih (fun x hx => h x (List.mem_cons_of_mem o hx))]

theorem sum_ite_single (os : List OrderRow) (r0 : Int) (q : Nat)
    (h : (os.map (fun o => o.id)).Nodup) :
    (os.map (fun o => if r0 = o.id then q else 0)).sum =
      if os.any (fun o => o.id == r0) then q else 0 := by
  induction os with
  | nil => rfl
  | cons o os' ih =>
    rw [List.map_cons] at h
    rcases List.nodup_cons.mp h with ⟨hno, hnd⟩
    rw [List.map_cons, List.sum_cons]
    by_cases ho : r0 = o.id
    · rw [if_pos ho]
      have hz : (os'.map (fun o => if r0 = o.id then q else 0)).sum = 0 := by
        apply sum_ite_zero
        intro x hx hc
        exact hno (List.mem_map.mpr ⟨x, hx, hc.symm.trans ho⟩)
      rw [hz]
      have : (o :: os').any (fun o => o.id == r0) = true := by
        simp [List.any_cons, ho.symm]
      rw [this]
      simp
    · rw [if_neg ho, ih hnd]
      have : (o :: os').any (fun o => o.id == r0) = os'.any (fun o => o.id == r0) := by
        simp [List.any_cons]
        intro hc
        exact absurd hc.symm ho
      rw [this]
      omega

theorem rowsQuantitySum_exchange (rows : List AssocRow) :
    ∀ (os : List OrderRow), (os.map (fun o => o.id)).Nodup →
      (os.map (fun o => rowsQuantitySum rows o.id)).sum =
        ((rows.filter (fun r => os.any (fun o => o.id == r.order_id))).map
          (fun r => r.quantity)).sum := by
  induction rows with
  | nil =>
    intro os _
    rw [List.filter_nil, List.map_nil, List.sum_nil]
    apply List.sum_eq_zero
    intro x hx
    rcases List.mem_map.mp hx with ⟨o, -, rfl⟩
    rfl
  | cons r rs ih =>
    intro os hnd
    have hsplit : (os.map (fun o => rowsQuantitySum (r :: rs) o.id)).sum =
        (os.map (fun o => if r.order_id = o.id then r.quantity else 0)).sum +
          (os.map (fun o => rowsQuantitySum rs o.id)).sum := by
      rw [← sum_map_add]
      congr 1
      apply List.map_congr_left
      intro o _
      rw [rowsQuantitySum_cons]
    rw [hsplit, sum_ite_single os r.order_id r.quantity hnd, ih os hnd]
    rw [List.filter_cons]
    by_cases hany : os.any (fun o => o.id == r.order_id) = true
    · rw [hany, if_pos rfl]
      simp
    · rw [Bool.not_eq_true] at hany
      rw [hany]
      simp

theorem sum_over_orders_with_assoc (os : List OrderRow) (rows : List AssocRow) (uid : Int) :
    ((os.filter (fun o => decide (o.user_id = uid) && rows.any (fun r => r.order_id == o.id))).map
      (fun o => rowsQuantitySum rows o.id)).sum =
    ((os.filter (fun o => decide (o.user_id = uid))).map
      (fun o => rowsQuantitySum rows o.id)).sum := by
  induction os with
  | nil => rfl
  | cons o os' ih =>
    rw [List.filter_cons, List.filter_cons]
    by_cases hu : o.user_id = uid
    · cases hany : (rows.any fun r => r.order_id == o.id) with
      | true => simp [hu, hany, ih]
      | false => simp [hu, hany, ih, rowsQuantitySum_eq_zero rows o.id hany]
    · simp [hu, ih]

theorem userPurchaseCount_eq_claim (db : DB) (uid : Int)
    (h : (db.orders.map (fun o => o.id)).Nodup) :
    userPurchaseCount db uid = claimPurchaseCount db uid := by
  have h1 : userPurchaseCount db uid =
      ((db.orders.filter (fun o => decide (o.user_id = uid))).map
        (fun o => rowsQuantitySum db.assocs o.id)).sum :=
    sum_over_orders_with_assoc db.orders db.assocs uid
  have hnd : ((db.orders.filter (fun o => decide (o.user_id = uid))).map
      (fun o => o.id)).Nodup :=
    List.Nodup.sublist ((List.filter_sublist db.orders).map (fun o => o.id)) h
  rw [h1, rowsQuantitySum_exchange db.assocs _ hnd]
  rfl

theorem pairwise_filterMap_of {α β : Type} (f : α → Option β) (R : α → α → Prop)
    (S : β → β → Prop) (hf : ∀ a b x y, R a b → f a = some x → f b = some y → S x y) :
    ∀ l : List α, l.Pairwise R → (l.filterMap f).Pairwise S := by
  intro l
  induction l with
  | nil => intro _; simp
  | cons a l ih =>
    intro h
    rcases List.pairwise_cons.mp h with ⟨ha, hl⟩
    rw [List.filterMap_cons]
    cases hfa : f a with
    | none => exact ih hl
    | some x =>
      refine List.pairwise_cons.mpr ⟨?_, ih hl⟩
      intro y hy
      rcases List.mem_filterMap.mp hy with ⟨b, hb, hfb⟩
      exact hf a b x y (ha b hb) hfa hfb

theorem getTop_mem_spec (db : DB) (n : Nat) :
    ∀ t ∈ getTopUsersByProductPurchaseCount db n,
      ∃ p ∈ subqueryAggregated db n, t.user_id = p.1 ∧ t.purchase_count = p.2 := by
  intro t ht
  rcases List.mem_filterMap.mp ht with ⟨p, hp, hmap⟩
  rcases Option.map_eq_some'.mp hmap with ⟨u, hfind, ht'⟩
  subst ht'
  have hid' := List.find?_some hfind
  have hid : u.id = p.1 := by simpa using hid'
  exact ⟨p, hp, hid, rfl⟩

theorem subqueryAggregated_mem_spec (db : DB) (n : Nat) :
    ∀ p ∈ subqueryAggregated db n,
      p.2 = userPurchaseCount db p.1 ∧ p.1 ∈ usersWithPurchases db := by
  intro p hp
  have hp1 : p ∈ sortDescBySnd
      ((usersWithPurchases db).map (fun u => (u, userPurchaseCount db u))) :=
    List.mem_of_mem_take hp
  have hp2 : p ∈ (usersWithPurchases db).map (fun u => (u, userPurchaseCount db u)) :=
    (sortDescBySnd_perm _).mem_iff.mp hp1
  rcases List.mem_map.mp hp2 with ⟨u, hu, rfl⟩
  exact ⟨rfl, hu⟩

/-- C9: the top-users query returns at most `n` entries; each entry's
purchase_count is the sum of `quantity` over all association rows of that
user's orders (given the primary-key invariant that order ids are unique);
and the result is sorted descending by purchase_count. -/
theorem C9_top_users_ranking (db : DB) (n : Nat)
    (h : (db.orders.map (fun o => o.id)).Nodup) :
    (getTopUsersByProductPurchaseCount db n).length ≤ n
    ∧ (∀ t ∈ getTopUsersByProductPurchaseCount db n,
        t.purchase_count = claimPurchaseCount db t.user_id)
    ∧ (getTopUsersByProductPurchaseCount db n).Pairwise
        (fun a b => b.purchase_count ≤ a.purchase_count) := by
  refine ⟨?_, ?_, ?_⟩
  · calc (getTopUsersByProductPurchaseCount db n).length
        ≤ (subqueryAggregated db n).length := List.length_filterMap_le _ _
      _ ≤ n := List.length_take_le _ _
  · intro t ht
    rcases getTop_mem_spec db n t ht with ⟨p, hp, hid, hcnt⟩
    rcases subqueryAggregated_mem_spec db n p hp with ⟨hval, -⟩
    rw [hcnt, hval, hid, userPurchaseCount_eq_claim db p.1 h]
  · apply pairwise_filterMap_of _ (fun p q : Int × Nat => q.2 ≤ p.2)
    · intro a b x y hab hfa hfb
      rcases Option.map_eq_some'.mp hfa with ⟨u, -, hx⟩
      rcases Option.map_eq_some'.mp hfb with ⟨v, -, hy⟩
      subst hx
      subst hy
      exact hab
    · exact List.Pairwise.sublist (List.take_sublist _ _) (sortDescBySnd_pairwise _)

/-- C10: a user none of whose orders has an association row (in particular a
user with no orders at all) never appears in the top-users result, whatever
`n` is: the query's inner joins exclude zero-purchase users instead of
listing them with purchase_count 0. -/
theorem C10_zero_purchase_excluded (db : DB) (n : Nat) (uid : Int)
    (h : ∀ o ∈ db.orders, o.user_id = uid → ∀ row ∈ db.assocs, row.order_id ≠ o.id) :
    ∀ t ∈ getTopUsersByProductPurchaseCount db n, t.user_id ≠ uid := by
  intro t ht hc
  rcases getTop_mem_spec db n t ht with ⟨p, hp, hid, -⟩
  rcases subqueryAggregated_mem_spec db n p hp with ⟨-, hu⟩
  rw [usersWithPurchases] at hu
  rcases (mem_distinctKeys p.1 _ []).mp hu with ⟨hmem, -⟩
  rcases List.mem_map.mp hmem with ⟨o, hof, huid⟩
  rcases List.mem_filter.mp hof with ⟨ho, hassoc⟩
  rcases List.any_eq_true.mp hassoc with ⟨row, hrow, hbeq⟩
  have hoid : row.order_id = o.id := by simpa using hbeq
  exact h o ho (huid.trans (hid.symm.trans hc)) row hrow hoid

theorem C1_association_quantity_witness :
    ((∀ e ∈ wEntries, e.id.isSome = true ∧ e.name.isSome = true ∧ e.price.isSome = true)
      ∧ (wEntries.filterMap (fun e => e.id)).count 10 = 2
      ∧ 1 ≤ 2
      ∧ countAssoc emptyDB.assocs 1 10 = 0)
    ∧ (∃ db' : DB, ∃ errs : List String,
        processLine emptyDB ⟨some 1, some 200, some ⟨some 1, some "Alice", some "Prague"⟩,
          some wEntries⟩ = .ok db' errs
        ∧ countAssoc db'.assocs 1 10 = 1
        ∧ ∀ row ∈ db'.assocs, row.order_id = 1 → row.product_id = 10 → row.quantity = 2) :=
  ⟨⟨by decide, by decide, by decide, by decide⟩,
    C1_association_quantity emptyDB 1 1 200 "Alice" "Prague" wEntries 10 2
      (by decide) (by decide) (by decide) (by decide)⟩

theorem C4_malformed_json_halts_witness :
    allOk emptyDB [wRec] = true
    ∧ (loadDataFromFile emptyDB ([wRec].map Line.record ++ Line.bad :: [Line.record wRec]) =
        .done (runState emptyDB [wRec]) (runErrs emptyDB [wRec] ++ [incorrectFormatMsg])
          ([wRec] : List OrderRecord).length
      ∧ main2LoadDataFromFile emptyDB ([wRec].map Line.record ++ Line.bad :: [Line.record wRec]) =
        .crashed (runState emptyDB [wRec]) (runErrs emptyDB [wRec]) jsonDecodeExn) :=
  ⟨by decide, C4_malformed_json_halts emptyDB [wRec] [Line.record wRec] (by decide)⟩

theorem C5_idempotent_reload_witness :
    ((∀ e ∈ wEntries, e.id.isSome = true ∧ e.name.isSome = true ∧ e.price.isSome = true)
      ∧ processLine emptyDB ⟨some 1, some 200, some ⟨some 1, some "Alice", some "Prague"⟩,
          some wEntries⟩ = .ok wDB1 [])
    ∧ processLine wDB1 ⟨some 1, some 200, some ⟨some 1, some "Alice", some "Prague"⟩,
        some wEntries⟩ = .ok wDB1 [] :=
  ⟨⟨by decide, by decide⟩,
    C5_idempotent_reload emptyDB 1 1 200 "Alice" "Prague" wEntries (by decide) wDB1 []
      (by decide)⟩

theorem C7_dedup_first_occurrence_witness :
    List.Sublist (deduplicateListOfOrderProductItems wItems) wItems
    ∧ (∀ k ∈ wItems.map itemKey,
        (deduplicateListOfOrderProductItems wItems).countP
          (fun i => decide (itemKey i = k)) = 1)
    ∧ (∀ i ∈ deduplicateListOfOrderProductItems wItems,
        wItems.find? (fun j => decide (itemKey j = itemKey i)) = some i) :=
  C7_dedup_first_occurrence wItems

theorem C8_orders_in_time_range_witness :
    (∀ o ∈ getOrdersInTimeRange wDB 60 120, 60 ≤ o.created ∧ o.created ≤ 120)
    ∧ (∀ ord ∈ wDB.orders, 60 ≤ ord.created → ord.created ≤ 120 →
        ∃ o ∈ getOrdersInTimeRange wDB 60 120,
          o.id = ord.id ∧ o.user_id = ord.user_id ∧ o.created = ord.created)
    ∧ (getOrdersInTimeRange wDB 60 120).Pairwise (fun a b => a.created ≤ b.created)
    ∧ (∀ o ∈ getOrdersInTimeRange wDB 60 120,
        o.product_ids.length =
          ((wDB.assocs.filter (fun row => decide (row.order_id = o.id))).map
            (fun row => row.quantity)).sum) :=
  C8_orders_in_time_range wDB 60 120

theorem C9_top_users_ranking_witness :
    (wDB.orders.map (fun o => o.id)).Nodup
    ∧ ((getTopUsersByProductPurchaseCount wDB 5).length ≤ 5
      ∧ (∀ t ∈ getTopUsersByProductPurchaseCount wDB 5,
          t.purchase_count = claimPurchaseCount wDB t.user_id)
      ∧ (getTopUsersByProductPurchaseCount wDB 5).Pairwise
          (fun a b => b.purchase_count ≤ a.purchase_count)) :=
  ⟨by decide, C9_top_users_ranking wDB 5 (by decide)⟩

theorem C10_zero_purchase_excluded_witness :
    (∀ o ∈ wDB.orders, o.user_id = 3 → ∀ row ∈ wDB.assocs, row.order_id ≠ o.id)
    ∧ (∀ t ∈ getTopUsersByProductPurchaseCount wDB 5, t.user_id ≠ 3) :=
  ⟨by decide, C10_zero_purchase_excluded wDB 5 3 (by decide)⟩
